import Mathlib

/-!
Verification of the cross-source product matching engine of this repository.

The Python sources are shallowly embedded as Lean definitions:

* text is modelled as `List Nat` of Unicode code points (a Python `str` is a
  sequence of code points); `cp` converts a Lean string literal to that form;
* Python `float` values appearing here are decimal literals with few digits
  and small products, which are exact in binary floating point, so they are
  modelled as `ℚ`;
* the regular expressions used by the weight extractors are of the shape
  `(\d+[.,]?\d*)\s*(alt1|alt2|...)\b`; for these patterns the backtracking
  search of Python `re.search` is equivalent to the greedy left-to-right
  matcher implemented below (no alternative of the unit group starts with a
  digit, a dot, a comma or a space, so giving back characters from `\d+`,
  `[.,]?`, `\d*` or `\s*` can never turn a failed unit match into a success),
  tried at every start position from the left;
* Python's `\w`, `\s` and `str.lower` are modelled on the character ranges
  that actually occur in this repository's data (ASCII plus the Cyrillic
  block U+0400..U+04FF);
* the MongoDB collection of products is a `List Product`; `find_one`,
  `update_one` and `delete_one` act on the first document with the given id.
-/

namespace Algo

/-- Code points of a string literal (a Python `str` is a sequence of code points). -/
def cp (s : String) : List Nat := s.data.map Char.toNat

/-- Python `\s` on the data handled by this repository (ASCII whitespace). -/
def isSpc (n : Nat) : Bool := n == 32 || n == 9 || n == 10 || n == 13 || n == 11 || n == 12

/-- Python `\w` on the data handled by this repository: ASCII alphanumerics,
the underscore, and the Cyrillic block U+0400..U+04FF (which contains
а-я, ё, і, ї, є, ґ and their capitals). -/
def isWordPy (n : Nat) : Bool :=
  decide ((48 ≤ n ∧ n ≤ 57) ∨ (65 ≤ n ∧ n ≤ 90) ∨ (97 ≤ n ∧ n ≤ 122) ∨ n = 95 ∨
    (1024 ≤ n ∧ n ≤ 1279))

/-- Python `str.lower` restricted to the scripts of this repository's data:
ASCII A-Z, Cyrillic А-Я (U+0410..U+042F, shift +32), and Ё, І, Ї, Є, Ґ. -/
def pyLower (n : Nat) : Nat :=
  if 65 ≤ n ∧ n ≤ 90 then n + 32
  else if 1040 ≤ n ∧ n ≤ 1071 then n + 32
  else if n = 1025 then 1105
  else if n = 1030 then 1110
  else if n = 1031 then 1111
  else if n = 1028 then 1108
  else if n = 1168 then 1169
  else n

/-- `text.lower()` character-wise. -/
def lowerL (l : List Nat) : List Nat := l.map pyLower

/-- `text.strip()`: drop leading and trailing whitespace. -/
def stripL (l : List Nat) : List Nat :=
  ((l.dropWhile isSpc).reverse.dropWhile isSpc).reverse

/-- Characters kept by the class `[\w\sа-яёіїєґ]` (the explicit Cyrillic
letters are already inside `\w`). -/
def keptChar (n : Nat) : Bool := isWordPy n || isSpc n

/-- `re.sub(r'[^\w\sа-яёіїєґ]', ' ', s)` of `ProductMapper._normalize_string`:
each non-kept character becomes one space (the class is not repeated). -/
def subChar (l : List Nat) : List Nat := l.map (fun c => if keptChar c then c else 32)

/-- Helper of `wordsL`: `acc` holds the reversed current token. -/
def wordsAux : List Nat → List Nat → List (List Nat)
  | [], acc => if acc.isEmpty then [] else [acc.reverse]
  | c :: r, acc =>
    if isSpc c then
      if acc.isEmpty then wordsAux r [] else acc.reverse :: wordsAux r []
    else wordsAux r (c :: acc)

/-- `s.split()`: the maximal whitespace-free tokens of `s`, in order. -/
def wordsL (l : List Nat) : List (List Nat) := wordsAux l []

/-- `' '.join(ws)`. -/
def joinWords : List (List Nat) → List Nat
  | [] => []
  | [w] => w
  | w :: ws => w ++ 32 :: joinWords ws

namespace ProductMapper

/-- `ProductMapper._normalize_string`: lower-case, strip, replace every
character outside `[\w\sа-яёіїєґ]` by a space, then `' '.join(s.split())`. -/
def normalizeString (l : List Nat) : List Nat :=
  joinWords (wordsL (subChar (stripL (lowerL l))))

end ProductMapper

namespace RyadomMatcher

/-- Helper of `subRuns`: the flag records whether the previous character was
part of a run of characters outside `[\w\s]`. -/
def subRunsAux : List Nat → Bool → List Nat
  | [], _ => []
  | c :: r, inRun =>
    if keptChar c then c :: subRunsAux r false
    else if inRun then subRunsAux r true
    else 32 :: subRunsAux r true

/-- `re.sub(r"[^\w\s]+", " ", text)` of `RyadomMatcher._normalize_text`:
each maximal run of non-kept characters becomes a single space. -/
def subRuns (l : List Nat) : List Nat := subRunsAux l false

/-- Helper of `collapseWs`: the flag records whether the previous character
was whitespace. -/
def collapseWsAux : List Nat → Bool → List Nat
  | [], _ => []
  | c :: r, inWs =>
    if isSpc c then
      if inWs then collapseWsAux r true else 32 :: collapseWsAux r true
    else c :: collapseWsAux r false

/-- `re.sub(r"\s+", " ", text)`: each maximal whitespace run becomes one space. -/
def collapseWs (l : List Nat) : List Nat := collapseWsAux l false

/-- `RyadomMatcher._normalize_text`: lower-case, strip, collapse runs of
non-`[\w\s]` characters to one space, collapse whitespace runs to one space.
There is no final strip. -/
def normalizeText (l : List Nat) : List Nat :=
  collapseWs (subRuns (stripL (lowerL l)))

end RyadomMatcher

/-! The weight extractors.  All of them search for a pattern of the shape
`(\d+[.,]?\d*)\s*(alt1|alt2|...)` (with a word boundary after the unit group
where the source regex has one) and differ in the unit alternatives, the
normalization applied to the matched unit, and the handling of a leading
multiplier token. -/

/-- One alternative of a regex unit group: its code points, whether a word
boundary is required after it, and the tag attached to the alternative. -/
structure UnitAlt (τ : Type) where
  tok : List Nat
  boundary : Bool
  tag : τ

/-- Python `\d` (ASCII digits, which is all the data contains). -/
def isDigitC (n : Nat) : Bool := 48 ≤ n && n ≤ 57

/-- Numeric value of a digit run. -/
def digitsVal (l : List Nat) : Nat := l.foldl (fun a d => a * 10 + (d - 48)) 0

/-- `float(d1 ++ "." ++ d2)` (what `float(match.group(1).replace(',', '.'))`
computes); exact for the decimal literals in this data. -/
def qOfParts (d1 d2 : List Nat) : ℚ :=
  (digitsVal d1 : ℚ) + (digitsVal d2 : ℚ) / ((10 : ℚ) ^ d2.length)

/-- `\b` after a word character: the next character is absent or not `\w`. -/
def boundaryOk : List Nat → Bool
  | [] => true
  | c :: _ => !isWordPy c

/-- Try the alternatives of a unit group in the order of the regex. -/
def tryAlts {τ : Type} : List (UnitAlt τ) → List Nat → Option (τ × List Nat)
  | [], _ => none
  | a :: rest, s =>
    if a.tok.isPrefixOf s && (!a.boundary || boundaryOk (s.drop a.tok.length)) then
      some (a.tag, s.drop a.tok.length)
    else tryAlts rest s

/-- A successful match of `(\d+[.,]?\d*)\s*(alts)`: the integer and
fractional digit runs of group 1, the tag of the matched alternative, and
the text after the end of the match (what the Python match object exposes
through `group` and `end`). -/
structure NumMatch (τ : Type) where
  d1 : List Nat
  d2 : List Nat
  tag : τ
  rest : List Nat
deriving DecidableEq

/-- Match `(\d+[.,]?\d*)\s*(alts)` at the start of `s`: greedy digits, an
optional decimal separator with more greedy digits, greedy whitespace, then
the first matching alternative. -/
def matchNumUnit {τ : Type} (alts : List (UnitAlt τ)) (s : List Nat) :
    Option (NumMatch τ) :=
  let d1 := s.takeWhile isDigitC
  if d1.isEmpty then none
  else
    let r1 := s.dropWhile isDigitC
    let (d2, r2) :=
      match r1 with
      | c :: r =>
        if c == 46 || c == 44 then (r.takeWhile isDigitC, r.dropWhile isDigitC)
        else (([] : List Nat), r1)
      | [] => (([] : List Nat), r1)
    let r3 := r2.dropWhile isSpc
    match tryAlts alts r3 with
    | some (tag, rest) => some ⟨d1, d2, tag, rest⟩
    | none => none

/-- `re.search`: try the pattern at every start position, leftmost first. -/
def searchNumUnit {τ : Type} (alts : List (UnitAlt τ)) : List Nat → Option (NumMatch τ)
  | [] => none
  | c :: r =>
    match matchNumUnit alts (c :: r) with
    | some res => some res
    | none => searchNumUnit alts r

namespace MigrateMatches

/-- The unit group `(кг|kg|л|l|мл|ml|г|g|гр)\b` of `migrate_matches.extract_weight`,
tagged with whether the unit is in `("kg", "кг", "l", "л")` (the `* 1000` case). -/
def migrateAlts : List (UnitAlt Bool) :=
  [⟨cp ("кг"), true, true⟩, ⟨cp ("kg"), true, true⟩, ⟨cp ("л"), true, true⟩,
   ⟨cp ("l"), true, true⟩, ⟨cp ("мл"), true, false⟩, ⟨cp ("ml"), true, false⟩,
   ⟨cp ("г"), true, false⟩, ⟨cp ("g"), true, false⟩, ⟨cp ("гр"), true, false⟩]

/-- `migrate_matches.extract_weight`: search the pattern in the lower-cased
text; multiply by 1000 when the matched unit is one of kg/кг/l/л. -/
def extractWeight (text : List Nat) : Option ℚ :=
  if text.isEmpty then none
  else
    match searchNumUnit migrateAlts (lowerL text) with
    | none => none
    | some m => some (qOfParts m.d1 m.d2 * (if m.tag then 1000 else 1))

end MigrateMatches

namespace JsonImporter

/-- The normalized units of `JsonImporter.extract_weight` (after `unit_map`). -/
inductive JUnit where
  | g | kg | l | ml | pcs
deriving DecidableEq

/-- The unit group `(г|кг|л|мл|g|kg|l|ml|шт|pcs)\b`, tagged with the
`unit_map`-normalized unit. -/
def jsonAlts : List (UnitAlt JUnit) :=
  [⟨cp ("г"), true, JUnit.g⟩, ⟨cp ("кг"), true, JUnit.kg⟩, ⟨cp ("л"), true, JUnit.l⟩,
   ⟨cp ("мл"), true, JUnit.ml⟩, ⟨cp ("g"), true, JUnit.g⟩, ⟨cp ("kg"), true, JUnit.kg⟩,
   ⟨cp ("l"), true, JUnit.l⟩, ⟨cp ("ml"), true, JUnit.ml⟩, ⟨cp ("шт"), true, JUnit.pcs⟩,
   ⟨cp ("pcs"), true, JUnit.pcs⟩]

/-- Parse one candidate source: `re.search(r'(\d+[.,]?\d*)\s*(г|кг|...)\b', str(val).lower())`. -/
def parseWeightStr (s : List Nat) : Option (NumMatch JUnit) :=
  searchNumUnit jsonAlts (lowerL s)

/-- The characters accepted by `[xхXХ]` of the multiplier regex. -/
def isXChar (n : Nat) : Bool := n == 120 || n == 88 || n == 1093 || n == 1061

/-- Match `(\d+)\s*[xхXХ]\s+` at the start of `s` and return group 2. -/
def matchMulCore (s : List Nat) : Option (List Nat) :=
  let d := s.takeWhile isDigitC
  if d.isEmpty then none
  else
    let r1 := (s.dropWhile isDigitC).dropWhile isSpc
    match r1 with
    | c :: r2 =>
      if isXChar c then
        match r2 with
        | c2 :: _ => if isSpc c2 then some d else none
        | [] => none
      else none
    | [] => none

/-- Positions after the first: the `\s` branch of `(^|\s)` must consume a
whitespace character before the digits. -/
def mulSearchTail : List Nat → Option (List Nat)
  | [] => none
  | c :: r =>
    if isSpc c then
      match matchMulCore r with
      | some m => some m
      | none => mulSearchTail r
    else mulSearchTail r

/-- `re.search(r'(^|\s)(\d+)\s*[xхXХ]\s+', title)` followed by
`float(mul_match.group(2))`: the multiplier, default 1. -/
def jsonMultiplier (title : List Nat) : ℚ :=
  match matchMulCore title with
  | some d => (digitsVal d : ℚ)
  | none =>
    match mulSearchTail title with
    | some d => (digitsVal d : ℚ)
    | none => 1

/-- The candidate fields of one record, `product_data.get(field)` modelled as
the empty string when the field is absent (`if val:` treats both alike). -/
structure Record where
  title : List Nat := []
  name : List Nat := []
  product_name : List Nat := []
  measure : List Nat := []
  weight : List Nat := []
  volume : List Nat := []
  unitInfo : List Nat := []
  unit_info : List Nat := []

/-- `search_fields = ['title', 'name', 'product_name', 'measure', 'weight',
'volume', 'unitInfo', 'unit_info']`, in source order. -/
def searchFields (d : Record) : List (List Nat) :=
  [d.title, d.name, d.product_name, d.measure, d.weight, d.volume, d.unitInfo, d.unit_info]

/-- `title = product_data.get('title') or product_data.get('name') or
product_data.get('product_name') or ""`. -/
def titleForMul (d : Record) : List Nat :=
  if d.title.isEmpty then (if d.name.isEmpty then d.product_name else d.name) else d.title

/-- The `for field in search_fields` loop: skip falsy fields, stop at the
first field whose regex search succeeds. -/
def fieldLoop : List (List Nat) → Option (NumMatch JUnit)
  | [] => none
  | f :: rest =>
    if f.isEmpty then fieldLoop rest
    else
      match parseWeightStr f with
      | some r => some r
      | none => fieldLoop rest

/-- `JsonImporter.extract_weight`: detect the multiplier on the title, then
take the first successful parse over the fields; a parsed value of 0 is falsy
and yields `(None, None)`. -/
def extractWeight (d : Record) : Option (ℚ × JUnit) :=
  let mul := jsonMultiplier (titleForMul d)
  match fieldLoop (searchFields d) with
  | some m =>
    let v := qOfParts m.d1 m.d2
    if v = 0 then none else some (v * mul, m.tag)
  | none => none

/-- The priority policy in the words of the specification: the first source
that yields a successful parse, over the given list of sources in order. -/
def firstSuccessfulParse (srcs : List (List Nat)) : Option (NumMatch JUnit) :=
  srcs.findSome? parseWeightStr

end JsonImporter

namespace ProductMapper

/-- The unit group `(?:г|кг|л|мл|g|kg|l|ml)\b` of the first pattern of
`ProductMapper._extract_weight` (non-capturing: no tag). -/
def pmAlts1 : List (UnitAlt Unit) :=
  [⟨cp ("г"), true, ()⟩, ⟨cp ("кг"), true, ()⟩, ⟨cp ("л"), true, ()⟩,
   ⟨cp ("мл"), true, ()⟩, ⟨cp ("g"), true, ()⟩, ⟨cp ("kg"), true, ()⟩,
   ⟨cp ("l"), true, ()⟩, ⟨cp ("ml"), true, ()⟩]

/-- The unit group `(?:гр|кг|литр|мл\b)` of the second pattern: only `мл`
carries a word boundary. -/
def pmAlts2 : List (UnitAlt Unit) :=
  [⟨cp ("гр"), false, ()⟩, ⟨cp ("кг"), false, ()⟩, ⟨cp ("литр"), false, ()⟩,
   ⟨cp ("мл"), true, ()⟩]

/-- `needle in hay` (substring containment). -/
def containsTok : List Nat → List Nat → Bool
  | [], n => n.isEmpty
  | c :: r, n => n.isPrefixOf (c :: r) || containsTok r n

/-- Unit detection of `_extract_weight` when parsing from the name: look at
the ten characters after the end of the match (the matched unit token itself
was consumed by the regex and is not part of `remaining`). -/
def unitFromRemaining (remaining : List Nat) : List Nat :=
  if containsTok remaining (cp ("кг")) || containsTok remaining (cp ("kg")) ||
      containsTok remaining (cp ("литр")) then cp ("kg")
  else if containsTok remaining (cp ("л")) || containsTok remaining (cp ("l")) then cp ("l")
  else cp ("g")

/-- The `multipliers` table: 1000 for kg/l units, default 1. -/
def unitMultPM (key : List Nat) : ℚ :=
  if key = cp ("kg") ∨ key = cp ("кг") ∨ key = cp ("l") ∨ key = cp ("л") ∨
      key = cp ("литр") then 1000
  else 1

/-- The `for pattern in patterns` loop on the lower-cased name: pattern 1,
then pattern 2. -/
def nameSearch (lname : List Nat) : Option (NumMatch Unit) :=
  match searchNumUnit pmAlts1 lname with
  | some m => some m
  | none => searchNumUnit pmAlts2 lname

/-- One product document as seen by `_extract_weight`: the dedicated
`weight_value`/`weight_unit` fields and the display name. -/
structure PMRecord where
  name : List Nat := []
  weight_value : Option ℚ := none
  weight_unit : List Nat := []

/-- `ProductMapper._extract_weight`: use the dedicated field when truthy,
otherwise parse the name; convert with the `multipliers` table. -/
def extractWeight (p : PMRecord) : Option ℚ :=
  let fieldVal : Option ℚ :=
    match p.weight_value with
    | some v => if v = 0 then none else some v
    | none => none
  match fieldVal with
  | some v => some (v * unitMultPM (lowerL p.weight_unit))
  | none =>
    match nameSearch (lowerL p.name) with
    | none => none
    | some m =>
      let v := qOfParts m.d1 m.d2
      if v = 0 then none
      else some (v * unitMultPM (unitFromRemaining (m.rest.take 10)))

end ProductMapper

namespace ProductMapper

/-! The decision engine: `ProductMapper._match_product` and `_match_with_ai`. -/

/-- The configuration keys of `self.config` used by the decision logic
(the defaults of `ProductMapper.__init__`). -/
structure Config where
  match_threshold : ℚ := 60
  auto_match_threshold : ℚ := 95

/-- One scored candidate as produced by `_score_candidate_enhanced`
(the candidate list handed to the decision is sorted by score). -/
structure Candidate where
  score : ℚ
  id : String
  name : String
  aggregator_count : Nat

/-- The parsed JSON object returned by the oracle (`json.loads(content)`);
`result.get(key)` of an absent key is `Option.none`. -/
structure AIRaw where
  best_match : Option String
  match_confidence : Option ℚ
  matched_uuid : Option String
  matched_csv_title : Option String

/-- The decision record returned for one query listing.  The free-form
`reason` string (Russian text interpolating numbers) is not modelled. -/
structure MatchOutcome where
  best_match : String
  match_confidence : ℚ
  matched_uuid : Option String
  matched_csv_title : Option String
  candidates_count : Nat
deriving DecidableEq

/-- `ProductMapper._match_with_ai`, with the oracle call
(`client.chat.completions.create` plus `json.loads`) abstracted as an
`Except` value: `Except.error` is any raised exception (timeout, network
error, malformed JSON).  The `except` clause catches it and returns a
`no_match` outcome.  On success, when the oracle asserts `match`, a
confidence at least `match_threshold` passes, a confidence at least
`match_threshold - 20` forces the match (leniency), anything lower is
rewritten to `no_match`. -/
def matchWithAI (cfg : Config) (resp : Except String AIRaw) (ncands : Nat) : MatchOutcome :=
  match resp with
  | Except.error _ =>
    { best_match := "no_match", match_confidence := 0, matched_uuid := none,
      matched_csv_title := none, candidates_count := ncands }
  | Except.ok raw =>
    let confidence := raw.match_confidence.getD 0
    let threshold := cfg.match_threshold
    let step : Bool × Option String :=
      if raw.best_match = some "match" then
        if threshold ≤ confidence then (false, raw.best_match)
        else if threshold - 20 ≤ confidence then (true, raw.best_match)
        else (false, some "no_match")
      else (false, raw.best_match)
    { best_match := if step.1 then "match" else step.2.getD "no_match",
      match_confidence := confidence,
      matched_uuid := raw.matched_uuid,
      matched_csv_title := raw.matched_csv_title,
      candidates_count := ncands }

/-- `ProductMapper._match_product` from the point where the candidate list
(including the fallback finder's result) is available: the decision tiers.
The second component counts the oracle invocations made for this listing. -/
def matchProductDecision (cfg : Config) (useAI hasClient : Bool)
    (resp : Except String AIRaw) (cands : List Candidate) : MatchOutcome × Nat :=
  match cands with
  | [] =>
    ({ best_match := "no_match", match_confidence := 0, matched_uuid := none,
       matched_csv_title := none, candidates_count := 0 }, 0)
  | top :: rest =>
    if cfg.auto_match_threshold ≤ top.score then
      ({ best_match := "match", match_confidence := min top.score 99,
         matched_uuid := some top.id, matched_csv_title := some top.name,
         candidates_count := (top :: rest).length }, 0)
    else if useAI && hasClient then
      (matchWithAI cfg resp (top :: rest).length, 1)
    else if cfg.match_threshold ≤ top.score then
      ({ best_match := "match", match_confidence := top.score,
         matched_uuid := some top.id, matched_csv_title := some top.name,
         candidates_count := (top :: rest).length }, 0)
    else
      ({ best_match := "no_match", match_confidence := top.score, matched_uuid := none,
         matched_csv_title := none, candidates_count := (top :: rest).length }, 0)

/-- The running counters of `run_matching`'s result dictionary (the lists
`matches`/`skips` and the error messages are not modelled). -/
structure RunReport where
  total : Nat
  matched : Nat
  no_match : Nat
deriving DecidableEq

/-- One iteration of the `for product in batch` loop: a decision is computed
and exactly one of the two counters is incremented. -/
def reportStep (cfg : Config) (r : RunReport)
    (it : List Candidate × Except String AIRaw) : RunReport :=
  if (matchProductDecision cfg true true it.2 it.1).1.best_match = "match" then
    { r with matched := r.matched + 1 }
  else
    { r with no_match := r.no_match + 1 }

/-- `run_matching` over a batch: each listing is represented by its candidate
list and by what the oracle would answer for it. -/
def runReport (cfg : Config) (items : List (List Candidate × Except String AIRaw)) :
    RunReport :=
  items.foldl (reportStep cfg) { total := items.length, matched := 0, no_match := 0 }

end ProductMapper

/-! The document store and the two merge implementations. -/

/-- One price entry of a product document.  The real sub-document carries
more fields (price, unit price, url, ...); for `$addToSet`, which compares
whole documents, they are summarized by the single `price` field, and
`aggregator` is the key the other merge deduplicates on (an empty string
stands for a missing/falsy aggregator). -/
structure Price where
  aggregator : String
  price : ℚ
deriving DecidableEq

/-- One product document with the fields touched by the merges. -/
structure Product where
  id : Nat
  prices : Option (List Price)
  mapping_status : String
  parent_id : Option Nat
  match_result : Option String
deriving DecidableEq

/-- `find_one({'_id': i})`: the first document with this id. -/
def findOne : List Product → Nat → Option Product
  | [], _ => none
  | p :: r, i => if p.id = i then some p else findOne r i

/-- `update_one({'_id': i}, {'$set': ...})`: rewrite the first document with
this id; a miss changes nothing. -/
def updateOne : List Product → Nat → (Product → Product) → List Product
  | [], _, _ => []
  | p :: r, i, f => if p.id = i then f p :: r else p :: updateOne r i f

/-- `delete_one({'_id': i})`: drop the first document with this id. -/
def deleteOne : List Product → Nat → List Product
  | [], _ => []
  | p :: r, i => if p.id = i then r else p :: deleteOne r i

/-- The `_id`s of a store are pairwise distinct (MongoDB guarantees it). -/
def idsNodup (s : List Product) : Prop := (s.map Product.id).Nodup

/-- Assignment `merged_prices_map[k] = v` on an insertion-ordered dict. -/
def upsert (m : List (String × Price)) (k : String) (v : Price) : List (String × Price) :=
  if k ∈ m.map Prod.fst then m.map (fun e => if e.1 = k then (k, v) else e)
  else m ++ [(k, v)]

/-- One iteration of the price loops of `run_matching` (lines 249-262):
`agg = p.get('aggregator'); if agg: merged_prices_map[agg] = p`. -/
def insPrice (m : List (String × Price)) (p : Price) : List (String × Price) :=
  if p.aggregator = "" then m else upsert m p.aggregator p

/-- The merged dict: existing prices inserted first, then the absorbed
product's prices override per aggregator. -/
def buildMap (e n : List Price) : List (String × Price) :=
  n.foldl insPrice (e.foldl insPrice [])

/-- `final_prices = list(merged_prices_map.values())`. -/
def mergePrices (e n : List Price) : List Price := (buildMap e n).map Prod.snd

/-- The `$set` of `run_matching` when the absorbed product had no prices:
`{'mapping_status': 'matched', 'match_result': ...}`. -/
def markMatched (mr : String) (r : Product) : Product :=
  { r with mapping_status := "matched", match_result := some mr }

/-- The `$set` of `run_matching` for a merged match: status, match result
and the merged price list. -/
def markMatchedPrices (mr : String) (ps : List Price) (r : Product) : Product :=
  { r with mapping_status := "matched", match_result := some mr, prices := some ps }

/-- The merge-and-commit step of `ProductMapper.run_matching` for one
accepted match (lines 230-287): look up the matched (absorbed) product; if
it exists and has a `prices` field, write the merged prices to the query
product, mark it `matched`, store the match result, and delete the absorbed
document from the store; otherwise only mark the query product. -/
def commitMatch (s : List Product) (pid mid : Nat) (mr : String) : List Product :=
  match findOne s mid with
  | some mp =>
    match mp.prices with
    | some np =>
      let ep := ((findOne s pid).bind Product.prices).getD []
      deleteOne (updateOne s pid (markMatchedPrices mr (mergePrices ep np))) mid
    | none => updateOne s pid (markMatched mr)
  | none => updateOne s pid (markMatched mr)

/-- `$addToSet` with `$each`: append each price document that is not already
present, by whole-document equality. -/
def addToSet (l xs : List Price) : List Price :=
  xs.foldl (fun acc x => if x ∈ acc then acc else acc ++ [x]) l

/-- The `$addToSet`/`$set` applied to the target of a `migrate` merge. -/
def tgtUpdate (sp : List Price) (r : Product) : Product :=
  { r with prices := some (addToSet (r.prices.getD []) sp),
           mapping_status := "matched" }

/-- The tombstone `$set` applied to the source of a `migrate` merge. -/
def srcTombstone (tgtId : Nat) (r : Product) : Product :=
  { r with mapping_status := "merged_into_parent", parent_id := some tgtId }

/-- The merge step of `migrate_matches.migrate` for one matched standalone
product (lines 178-199): `$addToSet` the source's prices onto the target and
mark the target `matched`; tombstone the source with `merged_into_parent`
and a `parent_id` back-reference.  Nothing is deleted. -/
def migrateMerge (s : List Product) (srcId tgtId : Nat) : List Product :=
  let sp := ((findOne s srcId).bind Product.prices).getD []
  updateOne (updateOne s tgtId (tgtUpdate sp)) srcId (srcTombstone tgtId)

/-- Number of price entries of a given aggregator. -/
def aggCount (l : List Price) (a : String) : Nat :=
  (l.filter (fun p => p.aggregator == a)).length

/-- Well-formedness of the insertion-ordered dict. -/
def goodMap (m : List (String × Price)) : Prop :=
  (m.map Prod.fst).Nodup ∧ ∀ x ∈ m, x.2.aggregator = x.1

/-! Concrete inputs used by the claim theorems below. -/

/-- A store with the query product (id 1, one Ryadom price) and a standalone
competitor product (id 2, one Glovo price), both pending. -/
def runStore : List Product :=
  [⟨1, some [⟨"Ryadom", 10⟩], "pending", none, none⟩,
   ⟨2, some [⟨"Glovo", 20⟩], "pending", none, none⟩]

/-- The standalone competitor document of `runStore`. -/
def glovoDoc : Product := ⟨2, some [⟨"Glovo", 20⟩], "pending", none, none⟩

/-- A store with a target product (id 1) and two standalone listings of the
same competitor source "Arbuz" carrying different prices. -/
def migStore : List Product :=
  [⟨1, some [⟨"Ryadom", 5⟩], "pending", none, none⟩,
   ⟨2, some [⟨"Arbuz", 10⟩], "pending", none, none⟩,
   ⟨3, some [⟨"Arbuz", 20⟩], "pending", none, none⟩]

/-- A record whose free-text title and dedicated `measure` field both carry
a parseable quantity, with different values. -/
def titleMeasureRecord : JsonImporter.Record :=
  { title := cp ("1л"), measure := cp ("500г") }


/-! Facts about `wordsL`, `joinWords`, `stripL` and the character maps, used
to prove that `ProductMapper._normalize_string` is idempotent. -/

theorem pyLower_fixed {m : Nat}
    (h : (97 ≤ m ∧ m ≤ 122) ∨ (1072 ≤ m ∧ m ≤ 1103) ∨
      m = 1105 ∨ m = 1110 ∨ m = 1111 ∨ m = 1108 ∨ m = 1169) :
    pyLower m = m := by
  unfold pyLower
  split_ifs <;> omega

theorem pyLower_range (n : Nat) :
    pyLower n = n ∨ (97 ≤ pyLower n ∧ pyLower n ≤ 122) ∨
      (1072 ≤ pyLower n ∧ pyLower n ≤ 1103) ∨
      pyLower n = 1105 ∨ pyLower n = 1110 ∨ pyLower n = 1111 ∨
      pyLower n = 1108 ∨ pyLower n = 1169 := by
  unfold pyLower
  split_ifs <;> omega

theorem pyLower_idem (n : Nat) : pyLower (pyLower n) = pyLower n := by
  rcases pyLower_range n with h | h
  · rw [h, h]
  · exact pyLower_fixed h

theorem map_id_of_mem {l : List Nat} {f : Nat → Nat} (h : ∀ c ∈ l, f c = c) :
    l.map f = l := by
  induction l with
  | nil => rfl
  | cons a t ih =>
    simp only [List.map_cons, h a (List.mem_cons_self a t),
      ih (fun c hc => h c (List.mem_cons_of_mem a hc))]

theorem mem_of_mem_dropWhile {l : List Nat} {p : Nat → Bool} {c : Nat}
    (h : c ∈ l.dropWhile p) : c ∈ l := by
  induction l with
  | nil => simp at h
  | cons a t ih =>
    by_cases hp : p a
    · simp only [List.dropWhile_cons, hp, if_true] at h
      exact List.mem_cons_of_mem a (ih h)
    · simp only [List.dropWhile_cons, hp, if_false] at h
      exact h

theorem mem_of_mem_stripL {l : List Nat} {c : Nat} (h : c ∈ stripL l) : c ∈ l := by
  unfold stripL at h
  rw [List.mem_reverse] at h
  have h2 := mem_of_mem_dropWhile h
  rw [List.mem_reverse] at h2
  exact mem_of_mem_dropWhile h2

theorem mem_subChar {l : List Nat} {c : Nat} (h : c ∈ subChar l) :
    keptChar c = true ∧ (c = 32 ∨ c ∈ l) := by
  unfold subChar at h
  obtain ⟨a, ha, rfl⟩ := List.mem_map.1 h
  by_cases hk : keptChar a = true
  · rw [if_pos hk]
    exact ⟨hk, Or.inr ha⟩
  · rw [if_neg hk]
    exact ⟨rfl, Or.inl rfl⟩

theorem wordsAux_nil_def (acc : List Nat) :
    wordsAux [] acc = if acc.isEmpty then [] else [acc.reverse] := rfl

theorem wordsAux_cons_spc {a : Nat} (t acc : List Nat) (hs : isSpc a = true) :
    wordsAux (a :: t) acc =
      if acc.isEmpty then wordsAux t [] else acc.reverse :: wordsAux t [] := by
  rw [wordsAux, if_pos hs]

theorem wordsAux_cons_nonspc {a : Nat} (t acc : List Nat) (hs : isSpc a = false) :
    wordsAux (a :: t) acc = wordsAux t (a :: acc) := by
  rw [wordsAux, hs, if_neg Bool.false_ne_true]

theorem wordsAux_mem (l : List Nat) : ∀ acc : List Nat, (∀ c ∈ acc, isSpc c = false) →
    ∀ w ∈ wordsAux l acc, w ≠ [] ∧ ∀ c ∈ w, isSpc c = false ∧ (c ∈ l ∨ c ∈ acc) := by
  induction l with
  | nil =>
    intro acc hacc w hw
    rw [wordsAux_nil_def] at hw
    by_cases he : acc.isEmpty = true
    · rw [if_pos he] at hw
      simp at hw
    · rw [if_neg he, List.mem_singleton] at hw
      subst hw
      refine ⟨by simpa [List.isEmpty_iff] using he, fun c hc => ?_⟩
      rw [List.mem_reverse] at hc
      exact ⟨hacc c hc, Or.inr hc⟩
  | cons a t ih =>
    intro acc hacc w hw
    by_cases hs : isSpc a = true
    · rw [wordsAux_cons_spc t acc hs] at hw
      have hfromTail : w ∈ wordsAux t [] →
          w ≠ [] ∧ ∀ c ∈ w, isSpc c = false ∧ (c ∈ a :: t ∨ c ∈ acc) := by
        intro hw2
        obtain ⟨hne, hc⟩ := ih [] (by simp) w hw2
        refine ⟨hne, fun c hcw => ⟨(hc c hcw).1, ?_⟩⟩
        rcases (hc c hcw).2 with h | h
        · exact Or.inl (List.mem_cons_of_mem a h)
        · simp at h
      by_cases he : acc.isEmpty = true
      · rw [if_pos he] at hw
        exact hfromTail hw
      · rw [if_neg he, List.mem_cons] at hw
        rcases hw with rfl | hw
        · refine ⟨by simpa [List.isEmpty_iff] using he, fun c hc => ?_⟩
          rw [List.mem_reverse] at hc
          exact ⟨hacc c hc, Or.inr hc⟩
        · exact hfromTail hw
    · have hs' : isSpc a = false := by simpa using hs
      rw [wordsAux_cons_nonspc t acc hs'] at hw
      have haccb : ∀ c ∈ a :: acc, isSpc c = false := by
        intro c hc
        rcases List.mem_cons.1 hc with rfl | hc
        · exact hs'
        · exact hacc c hc
      obtain ⟨hne, hc⟩ := ih (a :: acc) haccb w hw
      refine ⟨hne, fun c hcw => ⟨(hc c hcw).1, ?_⟩⟩
      rcases (hc c hcw).2 with h | h
      · exact Or.inl (List.mem_cons_of_mem a h)
      · rcases List.mem_cons.1 h with rfl | h
        · exact Or.inl (List.mem_cons_self c t)
        · exact Or.inr h

theorem wordsAux_append_nonspace {w : List Nat} (hw : ∀ c ∈ w, isSpc c = false) :
    ∀ (l acc : List Nat), wordsAux (w ++ l) acc = wordsAux l (w.reverse ++ acc) := by
  induction w with
  | nil => intro l acc; rfl
  | cons a t ih =>
    intro l acc
    have ha : isSpc a = false := hw a (List.mem_cons_self a t)
    have ht : ∀ c ∈ t, isSpc c = false := fun c hc => hw c (List.mem_cons_of_mem a hc)
    rw [List.cons_append, wordsAux_cons_nonspc (t ++ l) acc ha, ih ht l (a :: acc)]
    simp [List.reverse_cons, List.append_assoc]

theorem wordsAux_allspc {s : List Nat} (hs : ∀ c ∈ s, isSpc c = true) :
    ∀ acc : List Nat, wordsAux s acc = if acc.isEmpty then [] else [acc.reverse] := by
  induction s with
  | nil => intro acc; rfl
  | cons a t ih =>
    intro acc
    have ha : isSpc a = true := hs a (List.mem_cons_self a t)
    have ht : ∀ c ∈ t, isSpc c = true := fun c hc => hs c (List.mem_cons_of_mem a hc)
    rw [wordsAux_cons_spc t acc ha]
    by_cases he : acc.isEmpty = true
    · rw [if_pos he, if_pos he, ih ht]
      rfl
    · rw [if_neg he, if_neg he, ih ht]
      rfl

theorem wordsAux_append_trailing {s : List Nat} (hs : ∀ c ∈ s, isSpc c = true) :
    ∀ (l acc : List Nat), wordsAux (l ++ s) acc = wordsAux l acc := by
  intro l
  induction l with
  | nil =>
    intro acc
    rw [List.nil_append, wordsAux_allspc hs acc, wordsAux_nil_def]
  | cons a t ih =>
    intro acc
    rw [List.cons_append]
    by_cases hsa : isSpc a = true
    · rw [wordsAux_cons_spc (t ++ s) acc hsa, wordsAux_cons_spc t acc hsa, ih]
    · have hsa' : isSpc a = false := by simpa using hsa
      rw [wordsAux_cons_nonspc (t ++ s) acc hsa', wordsAux_cons_nonspc t acc hsa', ih]

theorem wordsAux_dropWhile : ∀ l : List Nat, wordsAux (l.dropWhile isSpc) [] = wordsAux l [] := by
  intro l
  induction l with
  | nil => rfl
  | cons a t ih =>
    by_cases hsa : isSpc a = true
    · rw [List.dropWhile_cons, if_pos hsa, wordsAux_cons_spc t [] hsa]
      rw [ih]
      rfl
    · rw [List.dropWhile_cons, if_neg hsa]

theorem wordsL_stripL (l : List Nat) : wordsL (stripL l) = wordsL l := by
  unfold wordsL stripL
  set m := l.dropWhile isSpc with hm
  have hsplit : m = (m.reverse.dropWhile isSpc).reverse ++ (m.reverse.takeWhile isSpc).reverse := by
    conv_lhs => rw [← List.reverse_reverse m, ← List.takeWhile_append_dropWhile isSpc m.reverse]
    rw [List.reverse_append]
  have hs : ∀ c ∈ (m.reverse.takeWhile isSpc).reverse, isSpc c = true := by
    intro c hc
    rw [List.mem_reverse] at hc
    exact List.mem_takeWhile_imp hc
  calc wordsAux (m.reverse.dropWhile isSpc).reverse []
      = wordsAux ((m.reverse.dropWhile isSpc).reverse ++ (m.reverse.takeWhile isSpc).reverse) [] :=
        (wordsAux_append_trailing hs _ _).symm
    _ = wordsAux m [] := by rw [← hsplit]
    _ = wordsAux l [] := wordsAux_dropWhile l

theorem wordsL_joinWords : ∀ ws : List (List Nat), (∀ w ∈ ws, w ≠ []) →
    (∀ w ∈ ws, ∀ c ∈ w, isSpc c = false) → wordsL (joinWords ws) = ws
  | [], _, _ => rfl
  | [w], hne, hsp => by
    have h1 : w ≠ [] := hne w (by simp)
    have h2 : ∀ c ∈ w, isSpc c = false := hsp w (by simp)
    show wordsAux (joinWords [w]) [] = [w]
    have hj : joinWords [w] = w ++ [] := by simp [joinWords]
    rw [hj, wordsAux_append_nonspace h2 [] [], wordsAux_nil_def]
    rw [if_neg (by simp [List.isEmpty_iff, h1])]
    simp
  | w :: w' :: rest, hne, hsp => by
    have h1 : w ≠ [] := hne w (by simp)
    have h2 : ∀ c ∈ w, isSpc c = false := hsp w (by simp)
    show wordsAux (joinWords (w :: w' :: rest)) [] = w :: w' :: rest
    have hj : joinWords (w :: w' :: rest) = w ++ 32 :: joinWords (w' :: rest) := rfl
    rw [hj, wordsAux_append_nonspace h2 _ []]
    rw [wordsAux_cons_spc _ _ (by rfl)]
    rw [if_neg (by simp [List.isEmpty_iff, h1])]
    have htail := wordsL_joinWords (w' :: rest) (fun u hu => hne u (List.mem_cons_of_mem w hu))
      (fun u hu => hsp u (List.mem_cons_of_mem w hu))
    rw [show wordsAux (joinWords (w' :: rest)) [] = wordsL (joinWords (w' :: rest)) from rfl,
      htail]
    simp

theorem mem_joinWords : ∀ {ws : List (List Nat)} {c : Nat}, c ∈ joinWords ws →
    c = 32 ∨ ∃ w ∈ ws, c ∈ w
  | [], c, h => by simp [joinWords] at h
  | [w], c, h => by
    right
    exact ⟨w, by simp, h⟩
  | w :: w' :: rest, c, h => by
    have hj : joinWords (w :: w' :: rest) = w ++ 32 :: joinWords (w' :: rest) := rfl
    rw [hj, List.mem_append, List.mem_cons] at h
    rcases h with h | h | h
    · exact Or.inr ⟨w, by simp, h⟩
    · exact Or.inl h
    · rcases mem_joinWords h with h32 | ⟨u, hu, hc⟩
      · exact Or.inl h32
      · exact Or.inr ⟨u, List.mem_cons_of_mem w hu, hc⟩

/-- Idempotence of `ProductMapper._normalize_string`. -/
theorem normalizeString_idem (l : List Nat) :
    ProductMapper.normalizeString (ProductMapper.normalizeString l) =
      ProductMapper.normalizeString l := by
  unfold ProductMapper.normalizeString
  set x := subChar (stripL (lowerL l)) with hx
  set ws := wordsL x with hws
  set r := joinWords ws with hr
  -- characters of x are kept and fixed by pyLower
  have hxkept : ∀ c ∈ x, keptChar c = true := fun c hc => (mem_subChar hc).1
  have hxlow : ∀ c ∈ x, pyLower c = c := by
    intro c hc
    rcases (mem_subChar hc).2 with rfl | hc2
    · rfl
    · have hc3 := mem_of_mem_stripL hc2
      obtain ⟨b, _, rfl⟩ := List.mem_map.1 hc3
      exact pyLower_idem b
  -- token facts
  have htok := wordsAux_mem x [] (by simp)
  have hne : ∀ w ∈ ws, w ≠ [] := fun w hw => (htok w hw).1
  have hnsp : ∀ w ∈ ws, ∀ c ∈ w, isSpc c = false := fun w hw c hc => ((htok w hw).2 c hc).1
  have hmemx : ∀ w ∈ ws, ∀ c ∈ w, c ∈ x := by
    intro w hw c hc
    rcases ((htok w hw).2 c hc).2 with h | h
    · exact h
    · simp at h
  -- characters of r
  have hrchar : ∀ c ∈ r, c = 32 ∨ c ∈ x := by
    intro c hc
    rcases mem_joinWords hc with h | ⟨w, hw, hcw⟩
    · exact Or.inl h
    · exact Or.inr (hmemx w hw c hcw)
  have hrlow : lowerL r = r := by
    apply map_id_of_mem
    intro c hc
    rcases hrchar c hc with rfl | h
    · rfl
    · exact hxlow c h
  have hrsub : subChar (stripL r) = stripL r := by
    apply map_id_of_mem
    intro c hc
    have hcr : c ∈ r := mem_of_mem_stripL hc
    have hk : keptChar c = true := by
      rcases hrchar c hcr with rfl | h
      · rfl
      · exact hxkept c h
    simp [hk]
  rw [hrlow, hrsub, wordsL_stripL, hr, wordsL_joinWords ws hne hnsp]

/-- Evaluation helper used in the claim statements below. -/
theorem normalizeString_example :
    ProductMapper.normalizeString (cp (" Coca-Cola  0.5L ")) =
      ProductMapper.normalizeString (cp ("coca-cola 0.5l")) := by decide

/-! Store lemmas. -/

theorem findOne_updateOne_self {s : List Product} {i : Nat} {f : Product → Product} {p : Product}
    (hf : ∀ q, (f q).id = q.id) (h : findOne s i = some p) :
    findOne (updateOne s i f) i = some (f p) := by
  induction s with
  | nil => simp [findOne] at h
  | cons q r ih =>
    by_cases hq : q.id = i
    · rw [findOne, if_pos hq] at h
      injection h with h
      subst h
      rw [updateOne, if_pos hq, findOne, if_pos (by rw [hf]; exact hq)]
    · rw [findOne, if_neg hq] at h
      rw [updateOne, if_neg hq, findOne, if_neg hq]
      exact ih h

theorem findOne_updateOne_ne {s : List Product} {i j : Nat} {f : Product → Product}
    (hf : ∀ q, (f q).id = q.id) (hij : i ≠ j) :
    findOne (updateOne s j f) i = findOne s i := by
  induction s with
  | nil => rfl
  | cons q r ih =>
    by_cases hq : q.id = j
    · rw [updateOne, if_pos hq, findOne, findOne,
        if_neg (by rw [hf]; rw [hq]; exact fun h => hij h.symm),
        if_neg (by rw [hq]; exact fun h => hij h.symm)]
    · rw [updateOne, if_neg hq, findOne, findOne]
      by_cases hqi : q.id = i
      · rw [if_pos hqi, if_pos hqi]
      · rw [if_neg hqi, if_neg hqi]
        exact ih

theorem length_updateOne (s : List Product) (i : Nat) (f : Product → Product) :
    (updateOne s i f).length = s.length := by
  induction s with
  | nil => rfl
  | cons q r ih =>
    by_cases hq : q.id = i
    · rw [updateOne, if_pos hq]
      rfl
    · rw [updateOne, if_neg hq, List.length_cons, List.length_cons, ih]

theorem updateOne_fix {s : List Product} {i : Nat} {f : Product → Product} {p : Product}
    (h : findOne s i = some p) (hfix : f p = p) : updateOne s i f = s := by
  induction s with
  | nil => rfl
  | cons q r ih =>
    by_cases hq : q.id = i
    · rw [findOne, if_pos hq] at h
      injection h with h
      subst h
      rw [updateOne, if_pos hq, hfix]
    · rw [findOne, if_neg hq] at h
      rw [updateOne, if_neg hq, ih h]

theorem length_deleteOne {s : List Product} {i : Nat} {p : Product}
    (h : findOne s i = some p) : (deleteOne s i).length + 1 = s.length := by
  induction s with
  | nil => simp [findOne] at h
  | cons q r ih =>
    by_cases hq : q.id = i
    · rw [deleteOne, if_pos hq]
      rfl
    · rw [findOne, if_neg hq] at h
      rw [deleteOne, if_neg hq, List.length_cons, List.length_cons, ih h]

theorem findOne_none_of_not_mem {s : List Product} {i : Nat}
    (h : i ∉ s.map Product.id) : findOne s i = none := by
  induction s with
  | nil => rfl
  | cons q r ih =>
    rw [List.map_cons, List.mem_cons] at h
    push_neg at h
    rw [findOne, if_neg (fun he => h.1 he.symm)]
    exact ih h.2

theorem findOne_deleteOne_self {s : List Product} {i : Nat} (h : idsNodup s) :
    findOne (deleteOne s i) i = none := by
  induction s with
  | nil => rfl
  | cons q r ih =>
    rw [idsNodup, List.map_cons, List.nodup_cons] at h
    by_cases hq : q.id = i
    · rw [deleteOne, if_pos hq]
      exact findOne_none_of_not_mem (by rw [← hq]; exact h.1)
    · rw [deleteOne, if_neg hq, findOne, if_neg hq]
      exact ih h.2

theorem findOne_deleteOne_ne {s : List Product} {i j : Nat} (hij : i ≠ j) :
    findOne (deleteOne s j) i = findOne s i := by
  induction s with
  | nil => rfl
  | cons q r ih =>
    by_cases hq : q.id = j
    · rw [deleteOne, if_pos hq, findOne, if_neg (by rw [hq]; exact fun h => hij h.symm)]
    · rw [deleteOne, if_neg hq, findOne, findOne]
      by_cases hqi : q.id = i
      · rw [if_pos hqi, if_pos hqi]
      · rw [if_neg hqi, if_neg hqi]
        exact ih

theorem idsNodup_updateOne {s : List Product} {i : Nat} {f : Product → Product}
    (hf : ∀ q, (f q).id = q.id) (h : idsNodup s) : idsNodup (updateOne s i f) := by
  induction s with
  | nil => exact h
  | cons q r ih =>
    rw [idsNodup, List.map_cons, List.nodup_cons] at h
    by_cases hq : q.id = i
    · rw [updateOne, if_pos hq, idsNodup, List.map_cons, List.nodup_cons, hf]
      exact ⟨h.1, h.2⟩
    · rw [updateOne, if_neg hq, idsNodup, List.map_cons, List.nodup_cons]
      refine ⟨?_, ih h.2⟩
      have : (updateOne r i f).map Product.id = r.map Product.id := by
        clear ih h
        induction r with
        | nil => rfl
        | cons w t iht =>
          by_cases hw : w.id = i
          · rw [updateOne, if_pos hw, List.map_cons, List.map_cons, hf]
          · rw [updateOne, if_neg hw, List.map_cons, List.map_cons, iht]
      rw [this]
      exact h.1

/-! `addToSet` lemmas. -/

theorem addToSet_cons (l : List Price) (x : Price) (xs : List Price) :
    addToSet l (x :: xs) = addToSet (if x ∈ l then l else l ++ [x]) xs := rfl

theorem mem_addToSet_left {l xs : List Price} {x : Price} (h : x ∈ l) :
    x ∈ addToSet l xs := by
  induction xs generalizing l with
  | nil => exact h
  | cons y ys ih =>
    rw [addToSet_cons]
    by_cases hy : y ∈ l
    · rw [if_pos hy]
      exact ih h
    · rw [if_neg hy]
      exact ih (List.mem_append_left _ h)

theorem mem_addToSet_right {l xs : List Price} {x : Price} (h : x ∈ xs) :
    x ∈ addToSet l xs := by
  induction xs generalizing l with
  | nil => simp at h
  | cons y ys ih =>
    rw [addToSet_cons]
    rcases List.mem_cons.1 h with rfl | h
    · by_cases hy : x ∈ l
      · rw [if_pos hy]
        exact mem_addToSet_left hy
      · rw [if_neg hy]
        exact mem_addToSet_left (List.mem_append_right _ (List.mem_singleton.2 rfl))
    · by_cases hy : y ∈ l
      · rw [if_pos hy]
        exact ih h
      · rw [if_neg hy]
        exact ih h

theorem addToSet_of_subset {l xs : List Price} (h : ∀ x ∈ xs, x ∈ l) :
    addToSet l xs = l := by
  induction xs with
  | nil => rfl
  | cons y ys ih =>
    rw [addToSet_cons, if_pos (h y (List.mem_cons_self y ys))]
    exact ih (fun x hx => h x (List.mem_cons_of_mem y hx))

theorem addToSet_addToSet (l xs : List Price) :
    addToSet (addToSet l xs) xs = addToSet l xs :=
  addToSet_of_subset (fun _ hx => mem_addToSet_right hx)

/-! The dict built by the `run_matching` price merge: its keys are pairwise
distinct and each value's aggregator equals its key. -/

theorem goodMap_nil : goodMap [] := by constructor <;> simp

theorem goodMap_upsert {m : List (String × Price)} {k : String} {v : Price}
    (h : goodMap m) (hv : v.aggregator = k) : goodMap (upsert m k v) := by
  unfold upsert
  by_cases hk : k ∈ m.map Prod.fst
  · rw [if_pos hk]
    constructor
    · have : (m.map (fun e => if e.1 = k then (k, v) else e)).map Prod.fst = m.map Prod.fst := by
        rw [List.map_map]
        apply List.map_congr_left
        intro e _
        by_cases he : e.1 = k
        · simp [he]
        · simp [he]
      rw [this]
      exact h.1
    · intro x hx
      obtain ⟨e, he, rfl⟩ := List.mem_map.1 hx
      by_cases hek : e.1 = k
      · simp only [hek, if_true]
        exact hv
      · simp only [hek, if_false]
        exact h.2 e he
  · rw [if_neg hk]
    constructor
    · rw [List.map_append]
      simp only [List.map_cons, List.map_nil]
      exact List.Nodup.append h.1 (List.nodup_singleton k)
        (by simpa [List.disjoint_right] using hk)
    · intro x hx
      rcases List.mem_append.1 hx with hx | hx
      · exact h.2 x hx
      · rw [List.mem_singleton] at hx
        subst hx
        exact hv

theorem goodMap_insPrice {m : List (String × Price)} {p : Price}
    (h : goodMap m) : goodMap (insPrice m p) := by
  unfold insPrice
  by_cases hp : p.aggregator = ""
  · rw [if_pos hp]
    exact h
  · rw [if_neg hp]
    exact goodMap_upsert h rfl

theorem goodMap_foldl {m : List (String × Price)} (l : List Price)
    (h : goodMap m) : goodMap (l.foldl insPrice m) := by
  induction l generalizing m with
  | nil => exact h
  | cons x xs ih =>
    rw [List.foldl_cons]
    exact ih (goodMap_insPrice h)

theorem goodMap_buildMap (e n : List Price) : goodMap (buildMap e n) :=
  goodMap_foldl n (goodMap_foldl e goodMap_nil)

theorem aggCount_nil (a : String) : aggCount [] a = 0 := rfl

theorem aggCount_zero_of_not_key {m : List (String × Price)} {a : String}
    (hkeys : a ∉ m.map Prod.fst) (hent : ∀ x ∈ m, x.2.aggregator = x.1) :
    aggCount (m.map Prod.snd) a = 0 := by
  induction m with
  | nil => rfl
  | cons x r ih =>
    rw [List.map_cons, List.mem_cons] at hkeys
    push_neg at hkeys
    rw [List.map_cons, aggCount, List.filter_cons]
    have hxa : (x.2.aggregator == a) = false := by
      rw [hent x (List.mem_cons_self x r)]
      exact beq_false_of_ne (fun he => hkeys.1 he.symm)
    rw [hxa]
    simp only [Bool.false_eq_true, if_false]
    exact ih hkeys.2 (fun y hy => hent y (List.mem_cons_of_mem x hy))

theorem aggCount_le_one_of_goodMap {m : List (String × Price)} (h : goodMap m) (a : String) :
    aggCount (m.map Prod.snd) a ≤ 1 := by
  induction m with
  | nil => simp [aggCount_nil]
  | cons x r ih =>
    rw [goodMap, List.map_cons, List.nodup_cons] at h
    have hent := h.2
    have hkey : x.1 ∉ r.map Prod.fst := h.1.1
    have hrgood : goodMap r :=
      ⟨h.1.2, fun y hy => hent y (List.mem_cons_of_mem x hy)⟩
    rw [List.map_cons, aggCount, List.filter_cons]
    by_cases hxa : (x.2.aggregator == a) = true
    · rw [hxa]
      simp only [if_true, List.length_cons, Nat.add_le_add_iff_right]
      have ha : a = x.1 := by
        rw [← hent x (List.mem_cons_self x r)]
        exact (beq_iff_eq.1 hxa).symm
      have : aggCount (r.map Prod.snd) a = 0 :=
        aggCount_zero_of_not_key (by rw [ha]; exact hkey) hrgood.2
      rw [aggCount] at this
      rw [this]
    · simp only [Bool.not_eq_true] at hxa
      rw [hxa]
      simp only [Bool.false_eq_true, if_false]
      exact ih hrgood

/-! Every aggregator occurring in the absorbed price list is represented in
the merged dict by an entry coming from the absorbed list (override). -/

theorem entry_after_insPrice {m : List (String × Price)} {x : Price}
    (hx : x.aggregator ≠ "") : (x.aggregator, x) ∈ insPrice m x := by
  unfold insPrice upsert
  rw [if_neg hx]
  by_cases hk : x.aggregator ∈ m.map Prod.fst
  · rw [if_pos hk]
    obtain ⟨e, he, hek⟩ := List.mem_map.1 hk
    refine List.mem_map.2 ⟨e, he, ?_⟩
    rw [if_pos hek]
  · rw [if_neg hk]
    exact List.mem_append_right _ (List.mem_singleton.2 rfl)

theorem entry_preserved_insPrice {m : List (String × Price)} {a : String} {q : Price} {p : Price}
    (h : (a, q) ∈ m) (hp : p.aggregator ≠ a) : (a, q) ∈ insPrice m p := by
  unfold insPrice upsert
  by_cases hem : p.aggregator = ""
  · rw [if_pos hem]
    exact h
  · rw [if_neg hem]
    by_cases hk : p.aggregator ∈ m.map Prod.fst
    · rw [if_pos hk]
      refine List.mem_map.2 ⟨(a, q), h, ?_⟩
      rw [if_neg (fun he => hp (Eq.symm he))]
    · rw [if_neg hk]
      exact List.mem_append_left _ h

theorem entry_preserved_foldl {rest : List Price} {m : List (String × Price)}
    {a : String} {q : Price} (h : (a, q) ∈ m) (hrest : ∀ p ∈ rest, p.aggregator ≠ a) :
    (a, q) ∈ rest.foldl insPrice m := by
  induction rest generalizing m with
  | nil => exact h
  | cons x xs ih =>
    rw [List.foldl_cons]
    exact ih (entry_preserved_insPrice h (hrest x (List.mem_cons_self x xs)))
      (fun p hp => hrest p (List.mem_cons_of_mem x hp))

theorem exists_entry_foldl : ∀ (n : List Price) (m : List (String × Price)) (a : String),
    a ≠ "" → (∃ p ∈ n, p.aggregator = a) →
    ∃ q, q ∈ n ∧ q.aggregator = a ∧ (a, q) ∈ n.foldl insPrice m
  | [], _, _, _, h => by simp at h
  | x :: rest, m, a, ha, h => by
    by_cases hr : ∃ p ∈ rest, p.aggregator = a
    · obtain ⟨q, hq1, hq2, hq3⟩ := exists_entry_foldl rest (insPrice m x) a ha hr
      exact ⟨q, List.mem_cons_of_mem x hq1, hq2, hq3⟩
    · push_neg at hr
      obtain ⟨p, hp1, hp2⟩ := h
      have hpx : p = x := by
        rcases List.mem_cons.1 hp1 with rfl | hp1
        · rfl
        · exact absurd hp2 (hr p hp1)
      subst hpx
      refine ⟨p, List.mem_cons_self p rest, hp2, ?_⟩
      rw [List.foldl_cons]
      exact entry_preserved_foldl (by rw [← hp2]; exact entry_after_insPrice (by rw [hp2]; exact ha))
        hr

/-! Idempotence of the two merge implementations. -/

theorem markMatched_fix (mr : String) (r : Product) :
    markMatched mr (markMatched mr r) = markMatched mr r := by
  cases r
  rfl

theorem markMatched_markMatchedPrices (mr : String) (ps : List Price) (r : Product) :
    markMatched mr (markMatchedPrices mr ps r) = markMatchedPrices mr ps r := by
  cases r
  rfl

theorem tgtUpdate_fix (sp : List Price) (r : Product) :
    tgtUpdate sp (tgtUpdate sp r) = tgtUpdate sp r := by
  cases r
  simp [tgtUpdate, addToSet_addToSet]

theorem srcTombstone_fix (t : Nat) (r : Product) :
    srcTombstone t (srcTombstone t r) = srcTombstone t r := by
  cases r
  rfl

theorem migrateMerge_idem (s : List Product) (srcId tgtId : Nat) (hne : srcId ≠ tgtId)
    (hsrc : (findOne s srcId).isSome) (htgt : (findOne s tgtId).isSome) :
    migrateMerge (migrateMerge s srcId tgtId) srcId tgtId = migrateMerge s srcId tgtId := by
  obtain ⟨p, hp⟩ := Option.isSome_iff_exists.1 hsrc
  obtain ⟨q, hq⟩ := Option.isSome_iff_exists.1 htgt
  have hid1 : ∀ r, (tgtUpdate (p.prices.getD []) r).id = r.id := fun r => rfl
  have hid2 : ∀ r, (srcTombstone tgtId r).id = r.id := fun r => rfl
  have hspv : ((findOne s srcId).bind Product.prices).getD [] = p.prices.getD [] := by
    rw [hp]
    rfl
  have e1 : migrateMerge s srcId tgtId =
      updateOne (updateOne s tgtId (tgtUpdate (p.prices.getD []))) srcId
        (srcTombstone tgtId) := by
    unfold migrateMerge
    rw [hspv]
  rw [e1]
  set s' := updateOne (updateOne s tgtId (tgtUpdate (p.prices.getD []))) srcId
    (srcTombstone tgtId) with hsdef
  have hsrc' : findOne s' srcId = some (srcTombstone tgtId p) := by
    rw [hsdef]
    exact findOne_updateOne_self hid2 (by rw [findOne_updateOne_ne hid1 hne]; exact hp)
  have htgt' : findOne s' tgtId = some (tgtUpdate (p.prices.getD []) q) := by
    rw [hsdef, findOne_updateOne_ne hid2 (Ne.symm hne)]
    exact findOne_updateOne_self hid1 hq
  have hspv' : ((findOne s' srcId).bind Product.prices).getD [] = p.prices.getD [] := by
    rw [hsrc']
    rfl
  have e2 : migrateMerge s' srcId tgtId =
      updateOne (updateOne s' tgtId (tgtUpdate (p.prices.getD []))) srcId
        (srcTombstone tgtId) := by
    unfold migrateMerge
    rw [hspv']
  rw [e2, updateOne_fix htgt' (tgtUpdate_fix _ q),
    updateOne_fix hsrc' (srcTombstone_fix tgtId p)]

theorem commitMatch_of_none {s : List Product} {pid mid : Nat} {mr : String}
    (h : findOne s mid = none) :
    commitMatch s pid mid mr = updateOne s pid (markMatched mr) := by
  unfold commitMatch
  rw [h]

theorem commitMatch_of_noPrices {s : List Product} {pid mid : Nat} {mr : String} {mp : Product}
    (h : findOne s mid = some mp) (hp : mp.prices = none) :
    commitMatch s pid mid mr = updateOne s pid (markMatched mr) := by
  unfold commitMatch
  rw [h]
  simp only [hp]

theorem commitMatch_of_prices {s : List Product} {pid mid : Nat} {mr : String} {mp : Product}
    {np : List Price} (h : findOne s mid = some mp) (hp : mp.prices = some np) :
    commitMatch s pid mid mr =
      deleteOne (updateOne s pid (markMatchedPrices mr
        (mergePrices (((findOne s pid).bind Product.prices).getD []) np))) mid := by
  unfold commitMatch
  rw [h]
  simp only [hp]

theorem commitMatch_idem (s : List Product) (pid mid : Nat) (mr : String)
    (hnd : idsNodup s) (hne : pid ≠ mid) (hpid : (findOne s pid).isSome) :
    commitMatch (commitMatch s pid mid mr) pid mid mr = commitMatch s pid mid mr := by
  obtain ⟨p0, hp0⟩ := Option.isSome_iff_exists.1 hpid
  have hidm : ∀ r, (markMatched mr r).id = r.id := fun r => rfl
  cases hmid : findOne s mid with
  | none =>
    rw [commitMatch_of_none hmid]
    have hmid' : findOne (updateOne s pid (markMatched mr)) mid = none := by
      rw [findOne_updateOne_ne hidm (Ne.symm hne)]
      exact hmid
    rw [commitMatch_of_none hmid']
    exact updateOne_fix (findOne_updateOne_self hidm hp0) (markMatched_fix mr p0)
  | some mp =>
    cases hmp : mp.prices with
    | none =>
      rw [commitMatch_of_noPrices hmid hmp]
      have hmid' : findOne (updateOne s pid (markMatched mr)) mid = some mp := by
        rw [findOne_updateOne_ne hidm (Ne.symm hne)]
        exact hmid
      rw [commitMatch_of_noPrices hmid' hmp]
      exact updateOne_fix (findOne_updateOne_self hidm hp0) (markMatched_fix mr p0)
    | some np =>
      have hep : ((findOne s pid).bind Product.prices).getD [] = p0.prices.getD [] := by
        rw [hp0]
        rfl
      have hidmp : ∀ r,
          (markMatchedPrices mr (mergePrices (p0.prices.getD []) np) r).id = r.id :=
        fun r => rfl
      have e1 : commitMatch s pid mid mr =
          deleteOne (updateOne s pid
            (markMatchedPrices mr (mergePrices (p0.prices.getD []) np))) mid := by
        rw [commitMatch_of_prices hmid hmp, hep]
      rw [e1]
      set s1 := updateOne s pid (markMatchedPrices mr (mergePrices (p0.prices.getD []) np))
        with hs1def
      have hnd1 : idsNodup s1 := idsNodup_updateOne hidmp hnd
      have hmid' : findOne (deleteOne s1 mid) mid = none := findOne_deleteOne_self hnd1
      have hpid' : findOne (deleteOne s1 mid) pid =
          some (markMatchedPrices mr (mergePrices (p0.prices.getD []) np) p0) := by
        rw [findOne_deleteOne_ne hne, hs1def]
        exact findOne_updateOne_self hidmp hp0
      rw [commitMatch_of_none hmid']
      exact updateOne_fix hpid' (markMatched_markMatchedPrices mr _ p0)

/-! The claims. -/

/-- Claim C9 (counterexample): `RyadomMatcher._normalize_text`, one of the
two normalizers the claim refers to, is not idempotent: trailing punctuation
becomes a trailing space that only a second application strips. -/
theorem c9_counterexample :
    RyadomMatcher.normalizeText (cp ("abc!")) = cp ("abc ") ∧
    RyadomMatcher.normalizeText (cp ("abc ")) = cp ("abc") ∧
    RyadomMatcher.normalizeText (RyadomMatcher.normalizeText (cp ("abc!"))) ≠
      RyadomMatcher.normalizeText (cp ("abc!")) := by
  refine ⟨by decide, by decide, by decide⟩

/-- Claim C9 (amended): the matching engine's normalizer,
`ProductMapper._normalize_string`, is deterministic (a pure function),
idempotent on every string, and case/whitespace-insensitive on the
specification's example: `normalize(" Coca-Cola  0.5L ") ==
normalize("coca-cola 0.5l")`.  This does not extend to
`RyadomMatcher._normalize_text`, which is not idempotent. -/
theorem c9_amended :
    (∀ l : List Nat, ProductMapper.normalizeString (ProductMapper.normalizeString l) =
      ProductMapper.normalizeString l) ∧
    ProductMapper.normalizeString (cp (" Coca-Cola  0.5L ")) =
      ProductMapper.normalizeString (cp ("coca-cola 0.5l")) :=
  ⟨normalizeString_idem, normalizeString_example⟩

/-- Claim C4 (counterexample): `ProductMapper._extract_weight`, the matching
engine's extractor the claim cites, does not satisfy
`extract_weight("500г") == extract_weight("0.5кг") == 500`: a name "500г"
yields 500 but a name "0.5кг" yields 0.5, because the unit is detected from
the text after the end of the regex match, which has already consumed the
unit token; and "2 x 500ml" yields 500, not 1000, because this extractor
applies no multiplier. -/
theorem c4_counterexample :
    ProductMapper.extractWeight { name := cp ("500г") } = some 500 ∧
    ProductMapper.extractWeight { name := cp ("0.5кг") } = some (1/2) ∧
    ProductMapper.extractWeight { name := cp ("2 x 500ml") } = some 500 ∧
    (1/2 : ℚ) ≠ 500 ∧ (500 : ℚ) ≠ 1000 := by
  have h1 : ProductMapper.nameSearch (lowerL (cp ("500г"))) =
      some ⟨[53, 48, 48], [], (), []⟩ := by decide
  have h2 : ProductMapper.nameSearch (lowerL (cp ("0.5кг"))) =
      some ⟨[48], [53], (), []⟩ := by decide
  have h3 : ProductMapper.nameSearch (lowerL (cp ("2 x 500ml"))) =
      some ⟨[53, 48, 48], [], (), []⟩ := by decide
  have hu : ProductMapper.unitMultPM (ProductMapper.unitFromRemaining []) = 1 := by decide
  refine ⟨?_, ?_, ?_, by norm_num, by norm_num⟩
  · norm_num [ProductMapper.extractWeight, h1, hu, qOfParts, digitsVal]
  · norm_num [ProductMapper.extractWeight, h2, hu, qOfParts, digitsVal]
  · norm_num [ProductMapper.extractWeight, h3, hu, qOfParts, digitsVal]

/-- Claim C4 (amended): the three weight extractors split the claimed
behaviour.  `migrate_matches.extract_weight` normalizes kg/l by 1000, so
`extract_weight("500г") == extract_weight("0.5кг") == 500`, but applies no
multiplier: `extract_weight("2 x 500ml") == 500`.
`JsonImporter.extract_weight` applies the leading multiplier
(`"2 x 500ml"` gives `(1000.0, 'ml')`) but returns the value with its unit
without the 1000 conversion (`"0.5кг"` gives `(0.5, 'kg')`).
`ProductMapper._extract_weight` converts units by 1000 but detects the unit
from the ten characters after the match, so a name ending in its unit token
is treated as grams (`"0.5кг"` gives 0.5) and no multiplier is applied
(`"2 x 500ml"` gives 500). -/
theorem c4_amended :
    MigrateMatches.extractWeight (cp ("500г")) = some 500 ∧
    MigrateMatches.extractWeight (cp ("0.5кг")) = some 500 ∧
    MigrateMatches.extractWeight (cp ("2 x 500ml")) = some 500 ∧
    JsonImporter.extractWeight { title := cp ("500г") } =
      some (500, JsonImporter.JUnit.g) ∧
    JsonImporter.extractWeight { title := cp ("0.5кг") } =
      some (1/2, JsonImporter.JUnit.kg) ∧
    JsonImporter.extractWeight { title := cp ("2 x 500ml") } =
      some (1000, JsonImporter.JUnit.ml) ∧
    ProductMapper.extractWeight { name := cp ("500г") } = some 500 ∧
    ProductMapper.extractWeight { name := cp ("0.5кг") } = some (1/2) ∧
    ProductMapper.extractWeight { name := cp ("2 x 500ml") } = some 500 := by
  have m1 : searchNumUnit MigrateMatches.migrateAlts (lowerL (cp ("500г"))) =
      some ⟨[53, 48, 48], [], false, []⟩ := by decide
  have m2 : searchNumUnit MigrateMatches.migrateAlts (lowerL (cp ("0.5кг"))) =
      some ⟨[48], [53], true, []⟩ := by decide
  have m3 : searchNumUnit MigrateMatches.migrateAlts (lowerL (cp ("2 x 500ml"))) =
      some ⟨[53, 48, 48], [], false, []⟩ := by decide
  have j1 : JsonImporter.fieldLoop (JsonImporter.searchFields { title := cp ("500г") }) =
      some ⟨[53, 48, 48], [], JsonImporter.JUnit.g, []⟩ := by decide
  have j1m : JsonImporter.jsonMultiplier (JsonImporter.titleForMul { title := cp ("500г") }) =
      1 := by decide
  have j2 : JsonImporter.fieldLoop (JsonImporter.searchFields { title := cp ("0.5кг") }) =
      some ⟨[48], [53], JsonImporter.JUnit.kg, []⟩ := by decide
  have j2m : JsonImporter.jsonMultiplier (JsonImporter.titleForMul { title := cp ("0.5кг") }) =
      1 := by decide
  have j3 : JsonImporter.fieldLoop (JsonImporter.searchFields { title := cp ("2 x 500ml") }) =
      some ⟨[53, 48, 48], [], JsonImporter.JUnit.ml, []⟩ := by decide
  have j3m : JsonImporter.jsonMultiplier
      (JsonImporter.titleForMul { title := cp ("2 x 500ml") }) = 2 := by decide
  have p1 : ProductMapper.nameSearch (lowerL (cp ("500г"))) =
      some ⟨[53, 48, 48], [], (), []⟩ := by decide
  have p2 : ProductMapper.nameSearch (lowerL (cp ("0.5кг"))) =
      some ⟨[48], [53], (), []⟩ := by decide
  have p3 : ProductMapper.nameSearch (lowerL (cp ("2 x 500ml"))) =
      some ⟨[53, 48, 48], [], (), []⟩ := by decide
  have hu : ProductMapper.unitMultPM (ProductMapper.unitFromRemaining []) = 1 := by decide
  refine ⟨?_, ?_, ?_, ?_, ?_, ?_, ?_, ?_, ?_⟩
  · rw [MigrateMatches.extractWeight, if_neg (by decide), m1]
    norm_num [qOfParts, digitsVal]
  · rw [MigrateMatches.extractWeight, if_neg (by decide), m2]
    norm_num [qOfParts, digitsVal]
  · rw [MigrateMatches.extractWeight, if_neg (by decide), m3]
    norm_num [qOfParts, digitsVal]
  · norm_num [JsonImporter.extractWeight, j1, j1m, qOfParts, digitsVal]
  · norm_num [JsonImporter.extractWeight, j2, j2m, qOfParts, digitsVal]
  · norm_num [JsonImporter.extractWeight, j3, j3m, qOfParts, digitsVal]
  · norm_num [ProductMapper.extractWeight, p1, hu, qOfParts, digitsVal]
  · norm_num [ProductMapper.extractWeight, p2, hu, qOfParts, digitsVal]
  · norm_num [ProductMapper.extractWeight, p3, hu, qOfParts, digitsVal]

/-- Claim C5 (counterexample): `JsonImporter.extract_weight` does not
consult the dedicated quantity field before the free-text title.  On a
record whose `measure` field parses to 500 g and whose title parses to 1 l,
the result comes from the title. -/
theorem c5_counterexample :
    JsonImporter.parseWeightStr (cp ("500г")) =
      some ⟨[53, 48, 48], [], JsonImporter.JUnit.g, []⟩ ∧
    JsonImporter.extractWeight titleMeasureRecord = some (1, JsonImporter.JUnit.l) ∧
    JsonImporter.extractWeight titleMeasureRecord ≠ some (500, JsonImporter.JUnit.g) := by
  have h1 : JsonImporter.fieldLoop (JsonImporter.searchFields titleMeasureRecord) =
      some ⟨[49], [], JsonImporter.JUnit.l, []⟩ := by decide
  have hm : JsonImporter.jsonMultiplier (JsonImporter.titleForMul titleMeasureRecord) = 1 := by
    decide
  have h2 : JsonImporter.extractWeight titleMeasureRecord =
      some (1, JsonImporter.JUnit.l) := by
    norm_num [JsonImporter.extractWeight, h1, hm, qOfParts, digitsVal]
  refine ⟨by decide, h2, ?_⟩
  rw [h2]
  decide

/-- Claim C5 (amended): for every input record,
`JsonImporter.extract_weight` tries its candidate text sources in the fixed
priority order title, name, product_name, measure, weight, volume, unitInfo,
unit_info — the free-text title before the dedicated quantity fields — and
stops at the first source that yields a successful parse (the result is the
first successful parse scaled by the title's multiplier; a parsed value of 0
is falsy and gives no result). -/
theorem c5_amended :
    (∀ d : JsonImporter.Record, JsonImporter.extractWeight d =
      match JsonImporter.firstSuccessfulParse
        [d.title, d.name, d.product_name, d.measure, d.weight, d.volume,
         d.unitInfo, d.unit_info] with
      | some m =>
        if qOfParts m.d1 m.d2 = 0 then none
        else some (qOfParts m.d1 m.d2 *
          JsonImporter.jsonMultiplier (JsonImporter.titleForMul d), m.tag)
      | none => none) ∧
    JsonImporter.fieldLoop (JsonImporter.searchFields titleMeasureRecord) =
      some ⟨[49], [], JsonImporter.JUnit.l, []⟩ := by
  constructor
  · intro d
    have hloop : ∀ srcs : List (List Nat),
        JsonImporter.fieldLoop srcs = srcs.findSome? JsonImporter.parseWeightStr := by
      intro srcs
      induction srcs with
      | nil => rfl
      | cons f rest ih =>
        rw [JsonImporter.fieldLoop, List.findSome?_cons]
        by_cases hf : f.isEmpty = true
        · rw [if_pos hf]
          have hfe : f = [] := List.isEmpty_iff.1 hf
          subst hfe
          rw [ih]
          rfl
        · rw [if_neg hf, ih]
          cases JsonImporter.parseWeightStr f <;> rfl
    show JsonImporter.extractWeight d = _
    rw [JsonImporter.extractWeight, JsonImporter.firstSuccessfulParse, ← hloop]
    rfl
  · decide

/-- Claim C6: when the top-ranked candidate's score is at least
`auto_match_threshold`, `_match_product` returns a `match` decision and the
oracle is never invoked (zero oracle calls). -/
theorem c6_auto_accept_no_oracle (cfg : ProductMapper.Config) (useAI hasClient : Bool)
    (resp : Except String ProductMapper.AIRaw) (top : ProductMapper.Candidate)
    (rest : List ProductMapper.Candidate)
    (h : cfg.auto_match_threshold ≤ top.score) :
    (ProductMapper.matchProductDecision cfg useAI hasClient resp (top :: rest)).1.best_match =
      "match" ∧
    (ProductMapper.matchProductDecision cfg useAI hasClient resp (top :: rest)).2 = 0 := by
  simp only [ProductMapper.matchProductDecision]
  rw [if_pos h]
  exact ⟨rfl, rfl⟩

/-- Claim C6 (witness): with the default configuration (auto threshold 95)
and a top candidate scored 96, the decision is a match with no oracle call,
for any oracle behaviour (here: one that would fail). -/
theorem c6_witness :
    (({} : ProductMapper.Config).auto_match_threshold ≤ (96 : ℚ)) ∧
    ((ProductMapper.matchProductDecision {} true true (Except.error ("timeout"))
        [⟨96, "id9", "Cola", 2⟩]).1.best_match = "match" ∧
      (ProductMapper.matchProductDecision {} true true (Except.error ("timeout"))
        [⟨96, "id9", "Cola", 2⟩]).2 = 0) :=
  ⟨by decide,
   c6_auto_accept_no_oracle {} true true (Except.error ("timeout")) ⟨96, "id9", "Cola", 2⟩ []
     (by decide)⟩

/-- Claim C10: an automatically accepted match reports
`match_confidence = min(score, 99)`, hence never 100, even when the clamped
local score is exactly 100. -/
theorem c10_auto_confidence_cap (cfg : ProductMapper.Config) (useAI hasClient : Bool)
    (resp : Except String ProductMapper.AIRaw) (top : ProductMapper.Candidate)
    (rest : List ProductMapper.Candidate)
    (h : cfg.auto_match_threshold ≤ top.score) :
    (ProductMapper.matchProductDecision cfg useAI hasClient resp
        (top :: rest)).1.match_confidence = min top.score 99 ∧
    (ProductMapper.matchProductDecision cfg useAI hasClient resp
        (top :: rest)).1.match_confidence ≤ 99 := by
  simp only [ProductMapper.matchProductDecision]
  rw [if_pos h]
  exact ⟨rfl, min_le_right _ _⟩

/-- Claim C10 (witness): a top candidate with the clamped maximal score 100
is auto-accepted with reported confidence `min 100 99 = 99`, not 100. -/
theorem c10_witness :
    (({} : ProductMapper.Config).auto_match_threshold ≤ (100 : ℚ)) ∧
    ((ProductMapper.matchProductDecision {} true true (Except.error ("e"))
        [⟨100, "id1", "Milk", 3⟩]).1.match_confidence = min (100 : ℚ) 99 ∧
      (ProductMapper.matchProductDecision {} true true (Except.error ("e"))
        [⟨100, "id1", "Milk", 3⟩]).1.match_confidence ≤ 99) ∧
    min (100 : ℚ) 99 = 99 :=
  ⟨by decide,
   c10_auto_confidence_cap {} true true (Except.error ("e")) ⟨100, "id1", "Milk", 3⟩ []
     (by decide),
   by decide⟩

/-- Claim C8: when the oracle returns a verdict of `match`,
`_match_with_ai` accepts the match exactly when the oracle's confidence is
at least `match_threshold`, or at least `match_threshold - 20` (the fixed
leniency margin); anything lower is converted to `no_match`. -/
theorem c8_oracle_threshold_leniency (cfg : ProductMapper.Config)
    (raw : ProductMapper.AIRaw) (n : Nat) (h : raw.best_match = some "match") :
    ((ProductMapper.matchWithAI cfg (Except.ok raw) n).best_match = "match" ↔
      cfg.match_threshold ≤ raw.match_confidence.getD 0 ∨
      cfg.match_threshold - 20 ≤ raw.match_confidence.getD 0) ∧
    (¬(cfg.match_threshold ≤ raw.match_confidence.getD 0 ∨
        cfg.match_threshold - 20 ≤ raw.match_confidence.getD 0) →
      (ProductMapper.matchWithAI cfg (Except.ok raw) n).best_match = "no_match") := by
  by_cases h1 : cfg.match_threshold ≤ raw.match_confidence.getD 0
  · constructor
    · simp [ProductMapper.matchWithAI, h, h1]
    · intro hcon
      exact absurd (Or.inl h1) hcon
  · by_cases h2 : cfg.match_threshold - 20 ≤ raw.match_confidence.getD 0
    · constructor
      · simp [ProductMapper.matchWithAI, h, h1, h2]
      · intro hcon
        exact absurd (Or.inr h2) hcon
    · constructor
      · simp [ProductMapper.matchWithAI, h, h1, h2]
      · intro hcon
        simp [ProductMapper.matchWithAI, h, h1, h2]

/-- Claim C8 (witness): with threshold 60, an oracle `match` verdict at
confidence 45 is accepted exactly when `45 ≥ 60` or `45 ≥ 40` — that is,
through the leniency margin. -/
theorem c8_witness :
    ((⟨some ("match"), some 45, some ("u1"), none⟩ :
        ProductMapper.AIRaw).best_match = some "match") ∧
    ((ProductMapper.matchWithAI {} (Except.ok ⟨some ("match"), some 45, some ("u1"), none⟩)
        3).best_match = "match" ↔
      ({} : ProductMapper.Config).match_threshold ≤
        ((⟨some ("match"), some 45, some ("u1"), none⟩ :
          ProductMapper.AIRaw).match_confidence.getD 0) ∨
      ({} : ProductMapper.Config).match_threshold - 20 ≤
        ((⟨some ("match"), some 45, some ("u1"), none⟩ :
          ProductMapper.AIRaw).match_confidence.getD 0)) :=
  ⟨rfl, (c8_oracle_threshold_leniency {} ⟨some ("match"), some 45, some ("u1"), none⟩ 3 rfl).1⟩

/-- Claim C7: an oracle failure is caught at the call site and converted to
a `no_match` decision with confidence 0 (`matchWithAI` is total — nothing
propagates), and for every batch, whatever the oracle does on each listing,
every listing is counted under exactly one outcome: the report satisfies
`total = length` and `matched + no_match = total`. -/
theorem c7_oracle_failure_isolated :
    (∀ (cfg : ProductMapper.Config) (e : String) (n : Nat),
      (ProductMapper.matchWithAI cfg (Except.error e) n).best_match = "no_match" ∧
      (ProductMapper.matchWithAI cfg (Except.error e) n).match_confidence = 0) ∧
    (∀ (cfg : ProductMapper.Config)
      (items : List (List ProductMapper.Candidate × Except String ProductMapper.AIRaw)),
      (ProductMapper.runReport cfg items).total = items.length ∧
      (ProductMapper.runReport cfg items).matched +
        (ProductMapper.runReport cfg items).no_match = items.length) := by
  constructor
  · intro cfg e n
    exact ⟨rfl, rfl⟩
  · intro cfg items
    have hfold : ∀ (ts : List (List ProductMapper.Candidate × Except String ProductMapper.AIRaw))
        (r : ProductMapper.RunReport),
        (ts.foldl (ProductMapper.reportStep cfg) r).total = r.total ∧
        (ts.foldl (ProductMapper.reportStep cfg) r).matched +
          (ts.foldl (ProductMapper.reportStep cfg) r).no_match =
          r.matched + r.no_match + ts.length := by
      intro ts
      induction ts with
      | nil =>
        intro r
        exact ⟨rfl, rfl⟩
      | cons it tts ih =>
        intro r
        rw [List.foldl_cons]
        obtain ⟨ht, hc⟩ := ih (ProductMapper.reportStep cfg r it)
        refine ⟨?_, ?_⟩
        · rw [ht]
          unfold ProductMapper.reportStep
          split <;> rfl
        · rw [hc]
          unfold ProductMapper.reportStep
          split <;> simp <;> omega
    obtain ⟨ht, hc⟩ := hfold items { total := items.length, matched := 0, no_match := 0 }
    refine ⟨ht, ?_⟩
    rw [ProductMapper.runReport, hc]
    simp

/-- Claim C3: both merge implementations are idempotent.  Running the
`migrate` merge of a source listing into a target twice leaves the store
exactly as after one run (the `$addToSet` adds nothing and the tombstone is
rewritten with the same values); running the `run_matching` commit twice is
likewise a no-op — the absorbed document is already gone, so the second call
only rewrites the same status and match result on the query product. -/
theorem c3_merge_idempotent :
    (∀ (s : List Product) (srcId tgtId : Nat), srcId ≠ tgtId →
      (findOne s srcId).isSome → (findOne s tgtId).isSome →
      migrateMerge (migrateMerge s srcId tgtId) srcId tgtId = migrateMerge s srcId tgtId) ∧
    (∀ (s : List Product) (pid mid : Nat) (mr : String), idsNodup s → pid ≠ mid →
      (findOne s pid).isSome →
      commitMatch (commitMatch s pid mid mr) pid mid mr = commitMatch s pid mid mr) :=
  ⟨fun s srcId tgtId hne hs ht => migrateMerge_idem s srcId tgtId hne hs ht,
   fun s pid mid mr hnd hne hp => commitMatch_idem s pid mid mr hnd hne hp⟩

/-- Claim C3 (witness): both idempotence statements applied to the concrete
two-product store. -/
theorem c3_witness :
    ((2 : Nat) ≠ 1 ∧ (findOne runStore 2).isSome ∧ (findOne runStore 1).isSome ∧
      migrateMerge (migrateMerge runStore 2 1) 2 1 = migrateMerge runStore 2 1) ∧
    (idsNodup runStore ∧ (1 : Nat) ≠ 2 ∧ (findOne runStore 1).isSome ∧
      commitMatch (commitMatch runStore 1 2 ("m")) 1 2 ("m") =
        commitMatch runStore 1 2 ("m")) :=
  ⟨⟨by decide, by decide, by decide,
    c3_merge_idempotent.1 runStore 2 1 (by decide) (by decide) (by decide)⟩,
   ⟨by unfold idsNodup; decide, by decide, by decide,
    c3_merge_idempotent.2 runStore 1 2 ("m") (by unfold idsNodup; decide) (by decide)
      (by decide)⟩⟩

/-- Claim C1 (counterexample): the merge-commit of `run_matching` does not
tombstone the absorbed record — it deletes it.  On a two-document store, one
committed match leaves one document and the absorbed id resolves to
nothing, so the total number of listing records is not unchanged. -/
theorem c1_counterexample :
    runStore.length = 2 ∧
    (commitMatch runStore 1 2 ("m")).length = 1 ∧
    findOne (commitMatch runStore 1 2 ("m")) 2 = none := by
  refine ⟨rfl, by decide, by decide⟩

/-- Claim C1 (amended): the two merge implementations differ.  In
`migrate_matches.migrate`, the absorbed (source) record is tombstoned —
`mapping_status` becomes `merged_into_parent` with a `parent_id`
back-reference to the target — it is never deleted, and the total number of
records is unchanged.  In `ProductMapper.run_matching`, the absorbed
(matched competitor) record is deleted from the store, so each committed
merge with an absorbable record decreases the record count by one. -/
theorem c1_amended :
    (∀ (s : List Product) (srcId tgtId : Nat) (p : Product), srcId ≠ tgtId →
      findOne s srcId = some p →
      (migrateMerge s srcId tgtId).length = s.length ∧
      findOne (migrateMerge s srcId tgtId) srcId =
        some { p with mapping_status := "merged_into_parent", parent_id := some tgtId }) ∧
    (∀ (s : List Product) (pid mid : Nat) (mr : String) (mp : Product) (np : List Price),
      idsNodup s → pid ≠ mid → findOne s mid = some mp → mp.prices = some np →
      (commitMatch s pid mid mr).length + 1 = s.length ∧
      findOne (commitMatch s pid mid mr) mid = none) := by
  constructor
  · intro s srcId tgtId p hne hp
    have e : migrateMerge s srcId tgtId =
        updateOne (updateOne s tgtId
          (tgtUpdate (((findOne s srcId).bind Product.prices).getD [])))
          srcId (srcTombstone tgtId) := rfl
    have hid1 : ∀ r,
        (tgtUpdate (((findOne s srcId).bind Product.prices).getD []) r).id = r.id :=
      fun r => rfl
    have hid2 : ∀ r, (srcTombstone tgtId r).id = r.id := fun r => rfl
    constructor
    · rw [e, length_updateOne, length_updateOne]
    · rw [e, findOne_updateOne_self hid2
        (by rw [findOne_updateOne_ne hid1 hne]; exact hp)]
      rfl
  · intro s pid mid mr mp np hnd hne hmid hmp
    have e := @commitMatch_of_prices s pid mid mr mp np hmid hmp
    have hf : ∀ r, (markMatchedPrices mr
        (mergePrices (((findOne s pid).bind Product.prices).getD []) np) r).id = r.id :=
      fun r => rfl
    have hm1 : findOne (updateOne s pid (markMatchedPrices mr
        (mergePrices (((findOne s pid).bind Product.prices).getD []) np))) mid = some mp := by
      rw [findOne_updateOne_ne hf (Ne.symm hne)]
      exact hmid
    constructor
    · rw [e, length_deleteOne hm1, length_updateOne]
    · rw [e]
      exact findOne_deleteOne_self (idsNodup_updateOne hf hnd)

/-- Claim C1 (witness): both parts of the amended claim applied to the
concrete two-product store. -/
theorem c1_witness :
    ((2 : Nat) ≠ 1 ∧ findOne runStore 2 = some glovoDoc ∧
      (migrateMerge runStore 2 1).length = runStore.length ∧
      findOne (migrateMerge runStore 2 1) 2 =
        some { glovoDoc with
               mapping_status := "merged_into_parent",
               parent_id := some 1 }) ∧
    (idsNodup runStore ∧ (1 : Nat) ≠ 2 ∧ findOne runStore 2 = some glovoDoc ∧
      glovoDoc.prices = some [⟨"Glovo", 20⟩] ∧
      (commitMatch runStore 1 2 ("m")).length + 1 = runStore.length ∧
      findOne (commitMatch runStore 1 2 ("m")) 2 = none) := by
  have h1 := c1_amended.1 runStore 2 1 glovoDoc (by decide) (by decide)
  have h2 := c1_amended.2 runStore 1 2 ("m") glovoDoc [⟨"Glovo", 20⟩]
    (by unfold idsNodup; decide) (by decide) (by decide) (by decide)
  exact ⟨⟨by decide, by decide, h1.1, h1.2⟩,
    ⟨by unfold idsNodup; decide, by decide, by decide, by decide, h2.1, h2.2⟩⟩

/-- Claim C2 (counterexample): a state reachable by a sequence of `migrate`
merges holds two price entries of the same source on one canonical product:
absorbing two listings of source "Arbuz" with different prices leaves both
entries on the target, because `$addToSet` only prevents exact-duplicate
documents. -/
theorem c2_counterexample :
    (findOne (migrateMerge (migrateMerge migStore 2 1) 3 1) 1).map
      (fun p => aggCount (p.prices.getD []) ("Arbuz")) = some 2 := by
  decide

/-- Claim C2 (amended): the price merge of `ProductMapper.run_matching`
does maintain the invariant: its result holds at most one price entry per
aggregator, and every aggregator present in the absorbed price list is
represented in the result by an entry taken from the absorbed list
(overwrite, not addition).  The `$addToSet` merge of `migrate` does not
maintain it (see the counterexample). -/
theorem c2_amended :
    (∀ (e n : List Price) (a : String), aggCount (mergePrices e n) a ≤ 1) ∧
    (∀ (e n : List Price) (p : Price), p ∈ n → p.aggregator ≠ "" →
      ∃ q, q ∈ mergePrices e n ∧ q.aggregator = p.aggregator ∧ q ∈ n) := by
  constructor
  · intro e n a
    exact aggCount_le_one_of_goodMap (goodMap_buildMap e n) a
  · intro e n p hp hne
    obtain ⟨q, hq1, hq2, hq3⟩ :=
      exists_entry_foldl n (e.foldl insPrice []) p.aggregator hne ⟨p, hp, rfl⟩
    exact ⟨q, List.mem_map_of_mem Prod.snd hq3, hq2, hq1⟩

/-- Claim C2 (witness): the amended claim applied to a target that already
holds an "Arbuz" entry and an absorbed listing with a newer "Arbuz" entry. -/
theorem c2_witness :
    aggCount (mergePrices [⟨"Arbuz", 10⟩] [⟨"Arbuz", 20⟩]) ("Arbuz") ≤ 1 ∧
    ((⟨"Arbuz", 20⟩ : Price) ∈ ([⟨"Arbuz", 20⟩] : List Price) ∧
      ("Arbuz" : String) ≠ "" ∧
      ∃ q, q ∈ mergePrices [⟨"Arbuz", 10⟩] [⟨"Arbuz", 20⟩] ∧
        q.aggregator = (⟨"Arbuz", 20⟩ : Price).aggregator ∧
        q ∈ ([⟨"Arbuz", 20⟩] : List Price)) :=
  ⟨c2_amended.1 [⟨"Arbuz", 10⟩] [⟨"Arbuz", 20⟩] ("Arbuz"),
   by decide, by decide,
   c2_amended.2 [⟨"Arbuz", 10⟩] [⟨"Arbuz", 20⟩] ⟨"Arbuz", 20⟩ (by decide) (by decide)⟩

end Algo
